import Mathlib

/-!
Shallow embedding of `cvrdump.py` (Castlevania: Resurrection asset extractor)
and verification of the frozen claims about it.

Conventions of the embedding:
* Python `bytes` values are `List Nat`, one entry per byte (each < 256 for
  well-formed inputs).
* Python non-negative ints are `Nat`; where Python arithmetic can go negative
  (the `//` floor division in `saf_decode`) we use `Int` with `Int.fdiv`,
  which is Python's floor division.
* `struct.unpack` of little-endian fields is modelled by explicit byte
  arithmetic (`u16le`, `u32le`, `u16list`); `struct` raises on a size
  mismatch, modelled by explicit length guards returning an error.
* Reading a byte out of range raises `IndexError` in Python; the embedding
  uses `List.getD _ 0`.  The claims below only evaluate the embedding on
  inputs where every access is in range.
* `int (255*v/31.0)` truncates a float quotient; for `0 ≤ v ≤ 2^16` the
  double-precision quotient `255*v/31.0` is never an integer plus/minus
  less than one ulp, so truncation agrees with natural division
  `255*v / 31`, which is how it is modelled (same for `/15.0`, `/63.0`).
* Functions that print and raise (`verify`) are modelled with an explicit
  error constructor carrying the failure; prints themselves are not modelled.
-/

/-! ### Little-endian byte helpers -/

/-- Little-endian 16-bit read at byte offset `i` (Python `unpack ('<H', ...)`). -/
def u16le (l : List Nat) (i : Nat) : Nat :=
  l.getD i 0 + 256 * l.getD (i+1) 0

/-- Little-endian 32-bit read at byte offset `i` (Python `unpack ('<I', ...)`). -/
def u32le (l : List Nat) (i : Nat) : Nat :=
  l.getD i 0 + 256 * l.getD (i+1) 0 + 65536 * l.getD (i+2) 0 + 16777216 * l.getD (i+3) 0

/-- Decode a byte list as consecutive little-endian 16-bit words
(Python `unpack (f'<{n}H', ...)`, with `n` words covering the whole list). -/
def u16list : List Nat → List Nat
  | b0 :: b1 :: rest => (b0 + 256 * b1) :: u16list rest
  | _ => []

/-! ### The morton interleave (`cvrdump.py` lines 121-130)

Source:
```
def morton (x, y):
    x = (x|(x<<8))&0x00ff00ff
    y = (y|(y<<8))&0x00ff00ff
    x = (x|(x<<4))&0x0f0f0f0f
    y = (y|(y<<4))&0x0f0f0f0f
    x = (x|(x<<2))&0x33333333
    y = (y|(y<<2))&0x33333333
    x = (x|(x<<1))&0x55555555
    y = (y|(y<<1))&0x55555555
    return x|(y<<1)
```
-/

def morton (x y : Nat) : Nat :=
  let x1 := (x ||| (x <<< 8)) &&& 0x00ff00ff
  let y1 := (y ||| (y <<< 8)) &&& 0x00ff00ff
  let x2 := (x1 ||| (x1 <<< 4)) &&& 0x0f0f0f0f
  let y2 := (y1 ||| (y1 <<< 4)) &&& 0x0f0f0f0f
  let x3 := (x2 ||| (x2 <<< 2)) &&& 0x33333333
  let y3 := (y2 ||| (y2 <<< 2)) &&& 0x33333333
  let x4 := (x3 ||| (x3 <<< 1)) &&& 0x55555555
  let y4 := (y3 ||| (y3 <<< 1)) &&& 0x55555555
  x4 ||| (y4 <<< 1)

/-- The transformation `morton` applies to each of its two arguments
(the source interleaves the two identical, independent pipelines). -/
def mortonSpread (n : Nat) : Nat :=
  let a := (n ||| (n <<< 8)) &&& 0x00ff00ff
  let b := (a ||| (a <<< 4)) &&& 0x0f0f0f0f
  let c := (b ||| (b <<< 2)) &&& 0x33333333
  (c ||| (c <<< 1)) &&& 0x55555555

/-! ### Colour decoders (`cvrdump.py` lines 133-151) -/

/-- `unpack1555`: ARGB1555 to `[r, g, b, a]`.  Note the alpha term is
`int (255*((colour>>15)&31))` in the source: no division by 31. -/
def unpack1555 (colour : Nat) : List Nat :=
  [ 255 * ((colour >>> 10) &&& 31) / 31
  , 255 * ((colour >>>  5) &&& 31) / 31
  , 255 * ( colour         &&& 31) / 31
  , 255 * ((colour >>> 15) &&& 31) ]

/-- `unpack4444`: ARGB4444 to `[r, g, b, a]`. -/
def unpack4444 (colour : Nat) : List Nat :=
  [ 255 * ((colour >>>  8) &&& 15) / 15
  , 255 * ((colour >>>  4) &&& 15) / 15
  , 255 * ( colour         &&& 15) / 15
  , 255 * ((colour >>> 12) &&& 15) / 15 ]

/-- `unpack565`: RGB565 to `[r, g, b]`. -/
def unpack565 (colour : Nat) : List Nat :=
  [ 255 * ((colour >>> 11) &&& 31) / 31
  , 255 * ((colour >>>  5) &&& 63) / 63
  , 255 * ( colour         &&& 31) / 31 ]

/-! ### PVR format decoders (`cvrdump.py` lines 45-224) -/

/-- Result of `pvr_decode`: the source returns either an error tuple
`(msg, '')`, raises via `verify`/`struct`, or returns `(pix, mode)`. -/
inductive PVRResult where
  | err (msg : String)
  | raised (msg : String)
  | ok (pix : List (List Nat)) (mode : String)
  deriving DecidableEq

/-- `morton_decode` (lines 187-201): skip to the largest mipmap (the final
`width*height*2` bytes), read 16-bit pixels, and place `src[morton (i, j)]`
at output row `i`, column `j`.  The length guard models `struct.unpack`
raising unless the mipmap slice is exactly `width*height` words. -/
def morton_decode (width height : Nat) (raw : List Nat) (decoder : Nat → List Nat) :
    Except String (List (List Nat)) :=
  let size := raw.length
  let base := width * height * 2
  let mip := raw.drop (size - base)
  if mip.length = 2 * (width * height) then
    let data := u16list mip
    .ok ((List.range height).map fun i =>
      ((List.range width).map fun j => decoder (data.getD (morton i j) 0)).flatten)
  else
    .error "struct.error: morton mipmap size mismatch"

/-- `vq_decode` (lines 155-185): a 2048-byte codebook of 1024 2x2-pixel
entries follows the header; the index map is the last `width*height/4`
bytes before a 10-byte trailing pad.  Entry pixels 0 and 2 go to row `2i`,
pixels 1 and 3 to row `2i+1`. -/
def vq_decode (width height : Nat) (raw : List Nat) (decoder : Nat → List Nat) :
    Except String (List (List Nat)) :=
  let tmp := raw.drop 16
  if (tmp.take 2048).length = 2048 then
    let book := u16list (tmp.take 2048)
    let size := raw.length - 10
    let base := width * height / 4
    let lut := (raw.take size).drop (size - base)
    .ok (((List.range (height / 2)).map fun i =>
      let pairs := (List.range (width / 2)).map fun j =>
        let entry := 4 * lut.getD (morton i j) 0
        (decoder (book.getD entry 0) ++ decoder (book.getD (entry + 2) 0),
         decoder (book.getD (entry + 1) 0) ++ decoder (book.getD (entry + 3) 0))
      [(pairs.map Prod.fst).flatten, (pairs.map Prod.snd).flatten]).flatten)
  else
    .error "struct.error: vq codebook size mismatch"

/-- Pixel-format constants of `pvr_decode`. -/
def ARGB1555 : Nat := 0x0
def RGB565 : Nat := 0x1
def ARGB4444 : Nat := 0x2

/-- Data-layout constants of `pvr_decode`. -/
def SQUARE_TWIDDLED : Nat := 0x1
def SQUARE_TWIDDLED_MIPMAP : Nat := 0x2
def VQ : Nat := 0x3
def VQ_MIPMAP : Nat := 0x4

/-- Header width field (little-endian u16 at offset 12). -/
def pvrWidth (data : List Nat) : Nat := u16le data 12

/-- Header height field (little-endian u16 at offset 14). -/
def pvrHeight (data : List Nat) : Nat := u16le data 14

/-- Lift a format decoder result into a `PVRResult` with its colour mode. -/
def pvrWrap (r : Except String (List (List Nat))) (mode : String) : PVRResult :=
  match r with
  | .ok pix => .ok pix mode
  | .error e => .raised e

/-- `pvr_decode` (lines 45-224).  Faithful points to note:
* the magic check compares the first four bytes with `'PVRT'`;
* `verify` raises when `width`/`height` reach `0x8000`;
* the VQ arm condition is the source's `VQ == fmt or VQ_MIPMAP`, whose
  second operand is the constant `0x4` and therefore always truthy, so
  every non-twiddled layout under a supported pixel format takes the VQ
  arm; the trailing `return 'Unsupported encoding', ''` is reached only
  for pixel formats outside `{ARGB1555, ARGB4444, RGB565}`. -/
def pvr_decode (data : List Nat) : PVRResult :=
  if data.take 4 ≠ [80, 86, 82, 84] then .err "Not a PVR texture!"
  else if data.length < 16 then .raised "struct.error: short header"
  else
    let px := data.getD 8 0
    let fmt := data.getD 9 0
    let width := pvrWidth data
    let height := pvrHeight data
    if 0x8000 ≤ width then .raised "width out of range"
    else if 0x8000 ≤ height then .raised "height out of range"
    else if px = ARGB1555 then
      if fmt = SQUARE_TWIDDLED ∨ fmt = SQUARE_TWIDDLED_MIPMAP then
        pvrWrap (morton_decode width height data unpack1555) "RGBA"
      else if fmt = VQ ∨ VQ_MIPMAP ≠ 0 then
        pvrWrap (vq_decode width height data unpack1555) "RGBA"
      else .err "Unsupported encoding"
    else if px = ARGB4444 then
      if fmt = SQUARE_TWIDDLED ∨ fmt = SQUARE_TWIDDLED_MIPMAP then
        pvrWrap (morton_decode width height data unpack4444) "RGBA"
      else if fmt = VQ ∨ VQ_MIPMAP ≠ 0 then
        pvrWrap (vq_decode width height data unpack4444) "RGBA"
      else .err "Unsupported encoding"
    else if px = RGB565 then
      if fmt = SQUARE_TWIDDLED ∨ fmt = SQUARE_TWIDDLED_MIPMAP then
        pvrWrap (morton_decode width height data unpack565) "RGB"
      else if fmt = VQ ∨ VQ_MIPMAP ≠ 0 then
        pvrWrap (vq_decode width height data unpack565) "RGB"
      else .err "Unsupported encoding"
    else .err "Unsupported encoding"

/-- Channel count of a colour mode tag. -/
def channels (mode : String) : Nat := if mode = "RGBA" then 4 else 3

/-! ### Reference bit-interleave functions used to reason about `morton` -/

/-- Spread the bits of `n` to even positions: bit `k` of `n` goes to
bit `2k` of the result. -/
def part1by1 (n : Nat) : Nat :=
  if h : n = 0 then 0 else n % 2 + 4 * part1by1 (n / 2)
decreasing_by exact Nat.div_lt_self (Nat.pos_of_ne_zero h) one_lt_two

/-- Fuel-bounded version of `part1by1` (structural recursion, so that the
kernel can evaluate it inside `decide`). -/
def part1by1F : Nat → Nat → Nat
  | 0, _ => 0
  | f+1, n => n % 2 + 4 * part1by1F f (n / 2)

/-- Extract the even-position bits of `n`: bit `2k` of `n` goes to bit `k`. -/
def evenBits (n : Nat) : Nat :=
  if h : n = 0 then 0 else n % 2 + 2 * evenBits (n / 4)
decreasing_by exact Nat.div_lt_self (Nat.pos_of_ne_zero h) (by omega)

/-- The inner three mask-shift steps of `mortonSpread`, restricted to
16-bit wide masks; used to split `mortonSpread` into independent bytes. -/
def spreadLow (n : Nat) : Nat :=
  let b := (n ||| (n <<< 4)) &&& 0x0f0f
  let c := (b ||| (b <<< 2)) &&& 0x3333
  (c ||| (c <<< 1)) &&& 0x5555

/-! ### `cstr_decode` (lines 24-26)

`data.index (0)` raises `ValueError` when no NUL byte is present, and
`.decode ('ASCII')` raises on bytes above 127; both are modelled as `none`. -/

def cstr_decode (data : List Nat) : Option String :=
  let z := data.takeWhile (· ≠ 0)
  if z.length = data.length then none
  else if z.all (· < 128) then
    some (String.mk (z.map fun b => (Char.ofNat b).toLower))
  else none

/-! ### `smt_load` (lines 226-263) and the material block of `smf_decode`
(lines 403-429) -/

/-- Result of `smt_load`: the source returns the error tuple
`('Malformed material!', '', '')` for files shorter than 120 bytes,
otherwise `(tags, params, count)`.  Parameter records are kept as their
raw 52 bytes (16 bytes of flag plus 4 vec3 of f32) since nothing in the
claims inspects the floats. -/
inductive MtlResult where
  | err
  | raised (msg : String)
  | ok (tags : List String) (params : List (List Nat)) (count : Nat)
  deriving DecidableEq

/-- Read `n` NUL-terminated 32-byte tags (the trailing tag list of a
material); `none` models a `cstr_decode` failure. -/
def smtTags (tmp : List Nat) : Nat → Option (List String)
  | 0 => some []
  | n+1 =>
    match cstr_decode (tmp.take 32) with
    | none => none
    | some t =>
      match smtTags (tmp.drop 32) n with
      | none => none
      | some ts => some (t :: ts)

/-- `smt_load`. -/
def smt_load (data : List Nat) : MtlResult :=
  if data.length < 120 then .err
  else
    match cstr_decode (data.take 32) with
    | none => .raised "cstr failure in material name"
    | some _ =>
      let count := u32le data 32
      let tmp := data.drop 36
      if 52 * count + 32 * count ≤ tmp.length then
        let params := (List.range count).map fun i => (tmp.drop (52 * i)).take 52
        match smtTags (tmp.drop (52 * count)) count with
        | none => .raised "cstr failure in texture tag"
        | some tags => .ok tags params count
      else .raised "struct.error: material record size mismatch"

/-- One glTF material entry as built by `smf_decode` lines 414-429
(only the fields the claims inspect). -/
structure GltfMaterial where
  name : String
  uri : String
  deriving DecidableEq

/-- Python string indexing `s[i]`, which yields a 1-character string. -/
def pystrGet (s : String) (i : Nat) : String :=
  String.mk [s.toList.getD i default]

/-- The material block of `smf_decode` (lines 403-429): load the material
file, and on the malformed-material error rebind `tags = 'ERROR'` (a
string) and `count = 1`; then for each `i < count`, `tags[i]` names an
image/texture/material triple.  In the error case Python string indexing
makes `tags[i]` the single character `'E'`. -/
def smf_materials (matdata : List Nat) : Except String (List GltfMaterial) :=
  match smt_load matdata with
  | .raised e => .error e
  | .err =>
    .ok ((List.range 1).map fun i =>
      let tag := pystrGet "ERROR" i
      { name := tag, uri := "../textures/" ++ tag ++ ".png" })
  | .ok tags _ count =>
    .ok ((List.range count).map fun i =>
      let tag := tags.getD i ""
      { name := tag, uri := "../textures/" ++ tag ++ ".png" })

/-! ### The strip loop of `smf_decode` (lines 591-616)

Indices and UVs are stored in the source padded to 8-element granularity
(`aligned = (nelem + 7)&~7`, i.e. `nelem` rounded up to a multiple of 8);
the loop reads `aligned` u32 indices and `2*aligned` f32 UVs but packs only
the first `nelem` / `2*nelem` into the output blobs.  Unpacking u32/f32
values and repacking them is byte-identity, so the embedding moves raw
bytes: `4*nelem` index bytes and `4*2*nelem` UV bytes per strip. -/

structure Strip where
  length : Nat
  slot : Nat
  index_offset : Nat
  uv_offset : Nat
  deriving DecidableEq

structure StripState where
  tmp : List Nat
  ndx : List Nat
  txc : List Nat
  strips : List Strip
  deriving DecidableEq

/-- Python `(nelem + 7) & ~7` on non-negative ints: round up to a
multiple of 8. -/
def alignedOf (nelem : Nat) : Nat := 8 * ((nelem + 7) / 8)

/-- One iteration of the strip loop: parse the 12-byte strip header
`(u32 unk0, u16 slot, u16 flags1, u32 nelem)`, move the first `4*nelem`
of `4*aligned` index bytes and the first `8*nelem` of `8*aligned` UV bytes
into the blobs, and record the strip with the blob offsets before the
append. -/
def strip_step (s : StripState) : StripState :=
  let slot := u16le s.tmp 4
  let nelem := u32le s.tmp 8
  let aligned := alignedOf nelem
  let rest := s.tmp.drop 12
  let rest2 := rest.drop (4 * aligned)
  { tmp := rest2.drop (8 * aligned)
  , ndx := s.ndx ++ rest.take (4 * nelem)
  , txc := s.txc ++ rest2.take (8 * nelem)
  , strips := s.strips ++ [⟨nelem, slot, s.ndx.length, s.txc.length⟩] }

/-- The strip loop, `count` iterations from an empty output state. -/
def strips_read (tmp : List Nat) (count : Nat) : StripState :=
  (List.range count).foldl (fun s _ => strip_step s) ⟨tmp, [], [], []⟩

/-! ### `saf_decode` (lines 730-946)

`saf_decode (data, prefix, filename, skel, animset)` only uses `len (skel)`
and the `prefix`/`filename` strings for the companion `.bin` path, so the
embedding takes the skeleton length and file name directly.  f32 payloads
are carried as their raw source bytes (unpack-then-repack of f32 values is
byte identity); the only computed floats, the `times[i]/fps` samples, are
kept as the raw u32 ticks in `SafBin.times` and every glTF `byteLength` /
`byteOffset` that Python derives from `len (tbin)` etc. is computed as the
corresponding byte count (4 bytes per time sample, 16 per quaternion or
position chunk). -/

def GLTF_FLOAT : Nat := 0x1406

structure SafView where
  buffer : Nat
  byteOffset : Nat
  byteLength : Nat
  byteStride : Nat
  deriving DecidableEq

structure SafAccessor where
  bufferView : Nat
  byteOffset : Nat
  type : String
  componentType : Nat
  count : Nat
  deriving DecidableEq

structure SafSampler where
  input : Nat
  interpolation : String
  output : Nat
  deriving DecidableEq

structure SafChannel where
  node : Nat
  path : String
  sampler : Nat
  deriving DecidableEq

structure SafAnim where
  channels : List SafChannel
  samplers : List SafSampler
  name : String
  deriving DecidableEq

structure SafBuffer where
  byteLength : Nat
  uri : String
  deriving DecidableEq

/-- The four arrays of the in-progress glTF document that `saf_decode`
reads and extends (`animations`, `bufferViews`, `accessors`, `buffers`). -/
structure Animset where
  animations : List SafAnim
  views : List SafView
  accessors : List SafAccessor
  buffers : List SafBuffer
  deriving DecidableEq

/-- The companion `.bin` contents: time bank (raw u32 ticks whose f32
`times[i]/fps` encoding is abstracted), rotation bank and position bank
(raw 16-byte f32x4 chunks copied from the source). -/
structure SafBin where
  times : List Nat
  rots : List (List Nat)
  poss : List (List Nat)
  deriving DecidableEq

/-- Outcome of `saf_decode`: `raised` for a `verify`/`struct` exception,
`skipped` for the early `return {}` on a bone-count mismatch (carrying the
two numbers of the printed diagnostic), `ok` for a normal return carrying
the extended document and the bytes written to `<filename>.bin`. -/
inductive SafOutcome where
  | raised (msg : String)
  | skipped (nbones : Int) (skelLen : Nat)
  | ok (out : Animset) (bin : SafBin)
  deriving DecidableEq

/-- Header and offset-table parse of `saf_decode` (lines 733-752): 48-byte
header `(32s tag, 4B flags/unks, f32 fps, u32 version, u32 count)`, the
`version == 1` verify, `count += 2`, the `count` u32 offsets and the
offset-range verify. -/
structure SafPre where
  flags : Nat
  count : Nat
  offsets : List Nat
  tmp : List Nat
  deriving DecidableEq

def saf_prelude (data : List Nat) : Except String SafPre :=
  if data.length < 48 then .error "struct.error: short saf header"
  else
    let flags := data.getD 32 0
    let version := u32le data 40
    if version ≠ 1 then .error "Version is not 1!"
    else
      let count := u32le data 44 + 2
      let tmp := data.drop 48
      if 4 * count ≤ tmp.length then
        let offsets := (List.range count).map fun i => u32le data (48 + 4 * i)
        if offsets.all (· < data.length) then
          .ok ⟨flags, count, offsets, tmp.drop (4 * count)⟩
        else .error "offset outside of data"
      else .error "struct.error: short offset table"

/-- Line 755: `nbones = (offsets[1] - offsets[0])//4//4 - 1`, with Python
ints and floor division (`Int.fdiv`). -/
def saf_nbones (offsets : List Nat) : Int :=
  (((offsets.getD 1 0 : Int) - (offsets.getD 0 0 : Int)).fdiv 4).fdiv 4 - 1

/-- Keyframe records (lines 764-778): per frame a u32 tick, `nb` 16-byte
rotation chunks and one 16-byte root-position chunk. -/
def readFrames (nb : Nat) : Nat → List Nat → Option (List (Nat × List (List Nat) × List Nat) × List Nat)
  | 0, tmp => some ([], tmp)
  | k+1, tmp =>
    if 4 + 16 * nb + 16 ≤ tmp.length then
      let t := u32le tmp 0
      let rots := (List.range nb).map fun j => (tmp.drop (4 + 16 * j)).take 16
      let bp := (tmp.drop (4 + 16 * nb)).take 16
      match readFrames nb k (tmp.drop (4 + 16 * nb + 16)) with
      | none => none
      | some (fs, rest) => some ((t, rots, bp) :: fs, rest)
    else none

/-- Position keys (lines 786-794): per frame `nb` 16-byte chunks. -/
def readPosFrames (nb : Nat) : Nat → List Nat → Option (List (List (List Nat)) × List Nat)
  | 0, tmp => some ([], tmp)
  | k+1, tmp =>
    if 16 * nb ≤ tmp.length then
      let ps := (List.range nb).map fun j => (tmp.drop (16 * j)).take 16
      match readPosFrames nb k (tmp.drop (16 * nb)) with
      | none => none
      | some (fs, rest) => some (ps :: fs, rest)
    else none

/-- The per-bone accessor/sampler/channel loop (lines 872-911), folded over
bone indices; `accs` is the document-wide accessor array, samplers and
channels start empty per animation. -/
def safBoneLoop (view_index time_keys cnt : Nat) (hasPos : Bool) (nb : Nat)
    (accs : List SafAccessor) : List SafAccessor × List SafSampler × List SafChannel :=
  (List.range nb).foldl
    (fun st i =>
      let a1 := st.1 ++ [⟨view_index + 1, i * 16, "VEC4", GLTF_FLOAT, cnt⟩]
      let s1 := st.2.1 ++ [⟨time_keys, "LINEAR", a1.length - 1⟩]
      let c1 := st.2.2 ++ [⟨i, "rotation", s1.length - 1⟩]
      if hasPos then
        let a2 := a1 ++ [⟨view_index + 2, i * 16, "VEC4", GLTF_FLOAT, cnt⟩]
        let s2 := s1 ++ [⟨time_keys, "LINEAR", a2.length - 1⟩]
        let c2 := c1 ++ [⟨i, "translation", s2.length - 1⟩]
        (a2, s2, c2)
      else (a1, s1, c1))
    (accs, [], [])

/-- `saf_decode`.  The bone-count check sits between the offset
verification and every mutation of the document and the `.bin` write. -/
def saf_decode (data : List Nat) (filename : String) (skelLen : Nat) (aset : Animset) :
    SafOutcome :=
  match saf_prelude data with
  | .error e => .raised e
  | .ok pre =>
    let nbones := saf_nbones pre.offsets
    if (skelLen : Int) ≠ nbones then .skipped nbones skelLen
    else
      let nb := nbones.toNat
      match readFrames nb pre.count pre.tmp with
      | none => .raised "struct.error: short keyframes"
      | some (frames, tmp1) =>
        match (if pre.flags &&& 2 ≠ 0 then
                 if 8 ≤ tmp1.length then some (tmp1.drop (8 + 36 * u32le tmp1 0)) else none
               else some tmp1) with
        | none => .raised "struct.error: short event header"
        | some tmp2 =>
          match (if pre.flags &&& 16 ≠ 0 then
                   match readPosFrames nb pre.count tmp2 with
                   | none => none
                   | some (ps, _) => some (some ps)
                 else some none) with
          | none => .raised "struct.error: short position keys"
          | some positions =>
            let kept := (frames.drop 1).take (pre.count - 2)
            let tbin := kept.map (·.1)
            let rbin := (kept.map fun f => f.2.1).flatten
            let pbin := match positions with
              | some ps => ((ps.drop 1).take (pre.count - 2)).flatten
              | none => kept.map fun f => f.2.2
            let tlen := 4 * tbin.length
            let rlen := 16 * rbin.length
            let plen := 16 * pbin.length
            let buffer_index := aset.buffers.length
            let buffers1 := aset.buffers ++ [⟨tlen + rlen + plen, filename ++ ".bin"⟩]
            let view_index := aset.views.length
            let frame_size := 16 * nb
            let views1 := aset.views ++
              [ ⟨buffer_index, 0, tlen, 0⟩
              , ⟨buffer_index, tlen, rlen, frame_size⟩
              , ⟨buffer_index, tlen + rlen, plen, if positions.isSome then frame_size else 0⟩ ]
            let time_keys := aset.accessors.length
            let accs0 := aset.accessors ++ [⟨view_index, 0, "SCALAR", GLTF_FLOAT, pre.count - 2⟩]
            let st := safBoneLoop view_index time_keys (pre.count - 2) positions.isSome nb accs0
            let final :=
              if positions.isSome then st
              else
                (st.1 ++ [⟨view_index + 2, 0, "VEC4", GLTF_FLOAT, pre.count - 2⟩],
                 st.2.1 ++ [⟨time_keys, "LINEAR", st.1.length⟩],
                 st.2.2 ++ [⟨0, "translation", st.2.1.length⟩])
            let animations1 := aset.animations ++ [⟨final.2.2, final.2.1, filename⟩]
            .ok ⟨animations1, views1, final.1, buffers1⟩ ⟨tbin, rbin, pbin⟩

/-- Caller-level effect of one animation (readbin lines 1186-1189 and the
`gltf.update (obj)` that follows): a raised exception propagates, a skip
leaves the document untouched and writes no `.bin` file, a normal return
replaces the document arrays and writes the blob. -/
def saf_run (data : List Nat) (filename : String) (skelLen : Nat) (aset : Animset) :
    Except String (Animset × Option SafBin) :=
  match saf_decode data filename skelLen aset with
  | .raised e => .error e
  | .skipped _ _ => .ok (aset, none)
  | .ok out bin => .ok (out, some bin)

/-- The per-animation loop of `readbin` (lines 1176-1206): each animation
is processed inside a `try`/`except` that reports and continues, so a
raised or skipped animation leaves the document as it was and processing
moves to the next animation. -/
def saf_process : List (List Nat) → String → Nat → Animset → Animset
  | [], _, _, a => a
  | d :: ds, fn, n, a =>
    saf_process ds fn n
      (match saf_run d fn n a with
       | .ok (a2, _) => a2
       | .error _ => a)

/-! ### Concrete inputs used by the counterexamples and witnesses -/

/-- A 2x2 RGB565 square-twiddled PVR blob with four little-endian 16-bit
pixels: magic `PVRT`, 4 unknown bytes, `(px, fmt, unk, width, height)`,
then the pixel words. -/
def mk2x2blob (a0 b0 a1 b1 a2 b2 a3 b3 : Nat) : List Nat :=
  [80, 86, 82, 84, 0, 0, 0, 0, 1, 1, 0, 0, 2, 0, 2, 0,
   a0, b0, a1, b1, a2, b2, a3, b3]

/-- The 2x2 RGB565 twiddled blob whose pixel words are `0, 1, 2, 3`. -/
def c2blob : List Nat := mk2x2blob 0 0 1 0 2 0 3 0

/-- A blob with pixel format `ARGB1555` and layout `0x9` (`RECTANGLE`),
2x2, with a full zeroed VQ codebook, one index byte, and the 10-byte tail:
outside the set of combinations the spec says is supported. -/
def c4blob : List Nat :=
  [80, 86, 82, 84, 0, 0, 0, 0, 0, 9, 0, 0, 2, 0, 2, 0] ++ List.replicate 2059 0

/-- A 1x1 `RGB565` `VQ` blob (supported combination, odd dimensions):
codebook plus tail, index map empty since `width*height/4 = 0`. -/
def c5blob : List Nat :=
  [80, 86, 82, 84, 0, 0, 0, 0, 1, 3, 0, 0, 1, 0, 1, 0] ++ List.replicate 2059 0

/-- Strip-stream bytes for two strips with `nelem = 5` and `nelem = 9`:
each strip is a 12-byte header, `4*aligned` index bytes and `8*aligned`
UV bytes with `aligned = 8` resp. `16`. -/
def c6tmp : List Nat :=
  [0, 0, 0, 0, 0, 0, 0, 0, 5, 0, 0, 0] ++ List.replicate 96 0 ++
  [0, 0, 0, 0, 0, 0, 0, 0, 9, 0, 0, 0] ++ List.replicate 192 0

/-- A 56-byte SAF animation: zero tag and flags, version 1, `count = 0`
(so two offsets), offsets `[0, 48]`, hence a derived bone count of
`48/16 - 1 = 2`. -/
def safBadAnim : List Nat :=
  List.replicate 32 0 ++ [0, 0, 0, 0] ++ [0, 0, 0, 0] ++ [1, 0, 0, 0] ++
  [0, 0, 0, 0] ++ [0, 0, 0, 0] ++ [48, 0, 0, 0]

/-- An empty glTF document state. -/
def emptyAnimset : Animset := ⟨[], [], [], []⟩

/-! ## Theorems -/

/-! ### C3: the ARGB1555 alpha channel -/

/-- C3 fails as stated: at colour `0x8000` the alpha channel is
`255*((c>>15)&31) = 255`, which is neither `0` nor `255*31 = 7905`. -/
theorem c3_counterexample :
    (unpack1555 32768).getD 3 0 = 255 * ((32768 >>> 15) &&& 31) ∧
    ¬ ((unpack1555 32768).getD 3 0 = 0 ∨ (unpack1555 32768).getD 3 0 = 255 * 31) := by
  decide

/-- C3 (amended): for every 16-bit colour `c` the alpha channel produced by
`unpack1555` equals `255*((c>>15)&31)`, and its value is either `0` or
`255` (not `255*31`: `(c>>15)&31` is a single bit for `c < 2^16`). -/
theorem c3_alpha (c : Nat) (hc : c < 65536) :
    (unpack1555 c).getD 3 0 = 255 * ((c >>> 15) &&& 31) ∧
    ((unpack1555 c).getD 3 0 = 0 ∨ (unpack1555 c).getD 3 0 = 255) := by
  refine ⟨rfl, ?_⟩
  have hs : c >>> 15 = c / 32768 := by
    rw [Nat.shiftRight_eq_div_pow]
  have h2 : c / 32768 = 0 ∨ c / 32768 = 1 := by omega
  show 255 * ((c >>> 15) &&& 31) = 0 ∨ 255 * ((c >>> 15) &&& 31) = 255
  rw [hs]
  rcases h2 with h | h <;> rw [h] <;> decide

/-- Closed witness for `c3_alpha` at `c = 0x8000`. -/
theorem c3_alpha_witness :
    32768 < 65536 ∧
    ((unpack1555 32768).getD 3 0 = 255 * ((32768 >>> 15) &&& 31) ∧
     ((unpack1555 32768).getD 3 0 = 0 ∨ (unpack1555 32768).getD 3 0 = 255)) :=
  ⟨by decide, c3_alpha 32768 (by decide)⟩

/-! ### C10: all channel values fit in a byte -/

/-- Channel expansion `255*(v&m)/m` never exceeds 255. -/
theorem unpack_div_bound (x m : Nat) (hm : 0 < m) : 255 * (x &&& m) / m < 256 := by
  have h1 : x &&& m ≤ m := Nat.and_le_right
  have h2 : 255 * (x &&& m) ≤ 255 * m := Nat.mul_le_mul_left _ h1
  have h3 : 255 * (x &&& m) / m ≤ 255 * m / m := Nat.div_le_div_right h2
  have h4 : 255 * m / m = 255 := Nat.mul_div_cancel _ hm
  omega

/-- C10: for every 16-bit colour value, each channel unpacker returns a
list whose elements all lie in `[0, 255]` (the values are naturals, so the
lower bound is implicit). -/
theorem c10_channel_range (c : Nat) (hc : c < 65536) :
    (∀ v ∈ unpack1555 c, v < 256) ∧
    (∀ v ∈ unpack4444 c, v < 256) ∧
    (∀ v ∈ unpack565 c, v < 256) := by
  have halpha : 255 * ((c >>> 15) &&& 31) < 256 := by
    have hs : c >>> 15 = c / 32768 := by rw [Nat.shiftRight_eq_div_pow]
    have h1 : (c >>> 15) &&& 31 ≤ c >>> 15 := Nat.and_le_left
    have h2 : c >>> 15 ≤ 1 := by omega
    omega
  refine ⟨?_, ?_, ?_⟩ <;> intro v hv
  · simp only [unpack1555, List.mem_cons, List.not_mem_nil, or_false] at hv
    rcases hv with rfl | rfl | rfl | rfl
    · exact unpack_div_bound _ 31 (by omega)
    · exact unpack_div_bound _ 31 (by omega)
    · exact unpack_div_bound _ 31 (by omega)
    · exact halpha
  · simp only [unpack4444, List.mem_cons, List.not_mem_nil, or_false] at hv
    rcases hv with rfl | rfl | rfl | rfl <;> exact unpack_div_bound _ 15 (by omega)
  · simp only [unpack565, List.mem_cons, List.not_mem_nil, or_false] at hv
    rcases hv with rfl | rfl | rfl
    · exact unpack_div_bound _ 31 (by omega)
    · exact unpack_div_bound _ 63 (by omega)
    · exact unpack_div_bound _ 31 (by omega)

/-- Closed witness for `c10_channel_range` at `c = 0xffff`. -/
theorem c10_channel_range_witness :
    65535 < 65536 ∧
    ((∀ v ∈ unpack1555 65535, v < 256) ∧
     (∀ v ∈ unpack4444 65535, v < 256) ∧
     (∀ v ∈ unpack565 65535, v < 256)) :=
  ⟨by decide, c10_channel_range 65535 (by decide)⟩

/-! ### C2: the 2x2 RGB565 square-twiddled texture -/

/-- C2 fails as stated: for the 2x2 RGB565 twiddled texture with pixel
words `0, 1, 2, 3`, the output pixel at (row 0, column 1) is
`unpack565 (src[morton (0, 1)])` with `morton (0, 1) = 2`, which differs
from `unpack565 (src[1])`. -/
theorem c2_counterexample :
    pvr_decode c2blob = .ok [[0, 0, 0, 0, 0, 16], [0, 0, 8, 0, 0, 24]] "RGB" ∧
    morton 0 1 = 2 ∧
    ([0, 0, 0, 0, 0, 16].drop 3 : List Nat) =
      unpack565 ((u16list (c2blob.drop 16)).getD (morton 0 1) 0) ∧
    ([0, 0, 0, 0, 0, 16].drop 3 : List Nat) ≠
      unpack565 ((u16list (c2blob.drop 16)).getD 1 0) := by
  decide

set_option maxHeartbeats 2000000 in
/-- C2 (amended): decoding a 2x2 RGB565 square-twiddled texture (16-byte
header and 4 little-endian 16-bit pixels `p0..p3`) yields two rows of six
byte values; row 0 is `unpack565 p0 ++ unpack565 p2` and row 1 is
`unpack565 p1 ++ unpack565 p3`, so the pixel at output (0, 1) equals
`unpack565 (src[morton (0, 1)]) = unpack565 (src[2])`. -/
theorem c2_decode2x2 (a0 b0 a1 b1 a2 b2 a3 b3 : Nat) :
    pvr_decode (mk2x2blob a0 b0 a1 b1 a2 b2 a3 b3) =
      .ok [unpack565 (a0 + 256 * b0) ++ unpack565 (a2 + 256 * b2),
           unpack565 (a1 + 256 * b1) ++ unpack565 (a3 + 256 * b3)] "RGB" ∧
    (unpack565 (a0 + 256 * b0) ++ unpack565 (a2 + 256 * b2)).length = 6 ∧
    (unpack565 (a1 + 256 * b1) ++ unpack565 (a3 + 256 * b3)).length = 6 ∧
    unpack565 (a2 + 256 * b2) =
      unpack565 ((u16list ((mk2x2blob a0 b0 a1 b1 a2 b2 a3 b3).drop 16)).getD (morton 0 1) 0) :=
  ⟨rfl, rfl, rfl, rfl⟩

/-! ### C4: which combinations are rejected -/

theorem c4blob_drop : c4blob.drop 16 = List.replicate 2059 0 := by
  have h : c4blob = [80, 86, 82, 84, 0, 0, 0, 0, 0, 9, 0, 0, 2, 0, 2, 0] ++
      List.replicate 2059 0 := rfl
  rw [h]
  exact List.drop_left' rfl

theorem c4blob_len : c4blob.length = 2075 := by
  have h : c4blob = [80, 86, 82, 84, 0, 0, 0, 0, 0, 9, 0, 0, 2, 0, 2, 0] ++
      List.replicate 2059 0 := rfl
  rw [h, List.length_append, List.length_replicate]
  rfl

/-- `pvr_decode` on `c4blob` reaches the ARGB1555 VQ arm. -/
theorem c4_reaches_vq :
    pvr_decode c4blob = pvrWrap (vq_decode 2 2 c4blob unpack1555) "RGBA" := by
  have h8 : c4blob.getD 8 0 = 0 := rfl
  have h9 : c4blob.getD 9 0 = 9 := rfl
  have hw : pvrWidth c4blob = 2 := rfl
  have hh : pvrHeight c4blob = 2 := rfl
  simp only [pvr_decode]
  rw [if_neg (by intro h; exact h rfl), if_neg (by simp [c4blob_len]),
    if_neg (by decide), if_neg (by decide),
    if_pos (by decide),
    if_neg (by decide),
    if_pos (Or.inr (by decide)), hw, hh]

/-- The VQ guard of `c4blob` passes, so `vq_decode` returns a matrix. -/
theorem c4_vq_ok : ∃ pix, vq_decode 2 2 c4blob unpack1555 = .ok pix := by
  unfold vq_decode
  rw [if_pos (by rw [c4blob_drop, List.take_replicate, List.length_replicate]; norm_num)]
  exact ⟨_, rfl⟩

/-- C4 fails as stated: the pair `(ARGB1555, 0x9)` lies outside
`{ARGB1555, RGB565, ARGB4444} x {SQUARE_TWIDDLED, SQUARE_TWIDDLED_MIPMAP,
VQ, VQ_MIPMAP}`, yet `pvr_decode` VQ-decodes it to a pixel matrix instead
of returning the error result: the source's `elif VQ == fmt or VQ_MIPMAP`
tests the truthy constant `VQ_MIPMAP`, so the VQ arm swallows every
layout that is not square-twiddled. -/
theorem c4_unsupported_eval :
    c4blob.getD 8 0 = ARGB1555 ∧ c4blob.getD 9 0 = 9 ∧
    (∃ pix, pvr_decode c4blob = .ok pix "RGBA") ∧
    pvr_decode c4blob ≠ .err "Unsupported encoding" := by
  obtain ⟨pix, hp⟩ := c4_vq_ok
  have hmain : pvr_decode c4blob = .ok pix "RGBA" := by
    rw [c4_reaches_vq, hp]; rfl
  exact ⟨rfl, rfl, ⟨pix, hmain⟩, by rw [hmain]; simp⟩

/-! ### C5: decoder output shape -/

theorem c5blob_drop : c5blob.drop 16 = List.replicate 2059 0 := by
  have h : c5blob = [80, 86, 82, 84, 0, 0, 0, 0, 1, 3, 0, 0, 1, 0, 1, 0] ++
      List.replicate 2059 0 := rfl
  rw [h]
  exact List.drop_left' rfl

theorem c5blob_len : c5blob.length = 2075 := by
  have h : c5blob = [80, 86, 82, 84, 0, 0, 0, 0, 1, 3, 0, 0, 1, 0, 1, 0] ++
      List.replicate 2059 0 := rfl
  rw [h, List.length_append, List.length_replicate]
  rfl

/-- C5 fails as stated: the 1x1 VQ RGB565 blob is accepted by
`pvr_decode` (no error), but the decoder returns zero rows, not
`height = 1` rows: `vq_decode` emits `2*(height/2)` rows. -/
theorem c5_counterexample :
    pvr_decode c5blob = .ok [] "RGB" ∧
    pvrHeight c5blob = 1 ∧
    ([] : List (List Nat)).length ≠ pvrHeight c5blob := by
  have h8 : c5blob.getD 8 0 = 1 := rfl
  have h9 : c5blob.getD 9 0 = 3 := rfl
  have hw : pvrWidth c5blob = 1 := rfl
  have hh : pvrHeight c5blob = 1 := rfl
  have hvq : vq_decode 1 1 c5blob unpack565 = .ok [] := by
    unfold vq_decode
    rw [if_pos (by rw [c5blob_drop, List.take_replicate, List.length_replicate]; norm_num)]
    rfl
  have hmain : pvr_decode c5blob = pvrWrap (vq_decode 1 1 c5blob unpack565) "RGB" := by
    simp only [pvr_decode]
    rw [if_neg (by intro h; exact h rfl), if_neg (by simp [c5blob_len]),
      if_neg (by decide), if_neg (by decide),
      if_neg (by decide), if_neg (by decide),
      if_pos (by decide),
      if_neg (by decide),
      if_pos (Or.inr (by decide)), hw, hh]
  refine ⟨by rw [hmain, hvq]; rfl, rfl, by rw [hh]; decide⟩

/-! ### C6: strip packing drops the alignment padding -/

set_option maxRecDepth 8000 in
/-- C6: each strip-loop iteration consumes `12 + 4*aligned + 8*aligned`
source bytes (`aligned = (nelem+7)&~7`) but appends only `4*nelem` index
bytes and `4*2*nelem` UV bytes, recording the pre-append blob offsets; in
particular for two strips with `nelem = 5, 9` the index data occupies
output bytes `[0, 20)` and `[20, 56)` and the UV offsets are `0` and `40`. -/
theorem c6_strip_packing :
    (∀ s : StripState,
      12 + 12 * alignedOf (u32le s.tmp 8) ≤ s.tmp.length →
      (strip_step s).ndx.length = s.ndx.length + 4 * u32le s.tmp 8 ∧
      (strip_step s).txc.length = s.txc.length + 8 * u32le s.tmp 8 ∧
      (strip_step s).strips =
        s.strips ++ [⟨u32le s.tmp 8, u16le s.tmp 4, s.ndx.length, s.txc.length⟩] ∧
      (strip_step s).tmp.length = s.tmp.length - (12 + 12 * alignedOf (u32le s.tmp 8))) ∧
    ((strips_read c6tmp 2).strips = [⟨5, 0, 0, 0⟩, ⟨9, 0, 20, 40⟩] ∧
     (strips_read c6tmp 2).ndx.length = 56 ∧
     (strips_read c6tmp 2).txc.length = 112) := by
  constructor
  · intro s h
    have hne : u32le s.tmp 8 ≤ alignedOf (u32le s.tmp 8) := by
      unfold alignedOf; omega
    refine ⟨?_, ?_, rfl, ?_⟩ <;>
      simp only [strip_step, List.length_append, List.length_take, List.length_drop] <;>
      omega
  · refine ⟨by decide, by decide, by decide⟩

set_option maxRecDepth 8000 in
/-- Closed witness for `c6_strip_packing` applied to the first strip of the
concrete stream (`nelem = 5`, `aligned = 8`). -/
theorem c6_strip_packing_witness :
    (12 + 12 * alignedOf (u32le c6tmp 8) ≤ c6tmp.length) ∧
    ((strip_step ⟨c6tmp, [], [], []⟩).ndx.length = 0 + 4 * u32le c6tmp 8 ∧
     (strip_step ⟨c6tmp, [], [], []⟩).txc.length = 0 + 8 * u32le c6tmp 8 ∧
     (strip_step ⟨c6tmp, [], [], []⟩).strips =
       [] ++ [⟨u32le c6tmp 8, u16le c6tmp 4, 0, 0⟩] ∧
     (strip_step ⟨c6tmp, [], [], []⟩).tmp.length =
       c6tmp.length - (12 + 12 * alignedOf (u32le c6tmp 8))) :=
  ⟨by decide, c6_strip_packing.1 ⟨c6tmp, [], [], []⟩ (by decide)⟩

/-! ### C7 and C9: the bone-count check of `saf_decode` -/

/-- Shared helper: when the derived bone count disagrees with the skeleton
length, `saf_decode` takes the early `return {}` branch. -/
theorem saf_decode_skip (data : List Nat) (fn : String) (skelLen : Nat) (aset : Animset)
    (pre : SafPre) (hpre : saf_prelude data = .ok pre)
    (hne : saf_nbones pre.offsets ≠ (skelLen : Int)) :
    saf_decode data fn skelLen aset = .skipped (saf_nbones pre.offsets) skelLen := by
  unfold saf_decode
  rw [hpre]
  exact if_pos (by omega)

/-- The source's `// 4 // 4` is division by 16 (Python floor division,
positive divisors). -/
theorem saf_nbones_div16 (offsets : List Nat) :
    saf_nbones offsets =
      (((offsets.getD 1 0 : Int) - (offsets.getD 0 0 : Int)).fdiv 16) - 1 := by
  unfold saf_nbones
  rw [Int.fdiv_eq_ediv _ (by omega), Int.fdiv_eq_ediv _ (by omega),
    Int.fdiv_eq_ediv _ (by omega)]
  omega

/-- C7: `saf_decode` derives the expected bone count as
`(offsets[1] - offsets[0]) // 4 // 4 - 1`, i.e. the offset difference
divided by 16, reduced by 1; when it differs from the skeleton length the
animation is skipped (early return carrying the diagnostic numbers, no
animation output), and the per-animation loop continues with the next
animation exactly as if the bad one were absent. -/
theorem c7_bone_mismatch_skips :
    (∀ offsets : List Nat, saf_nbones offsets =
      (((offsets.getD 1 0 : Int) - (offsets.getD 0 0 : Int)).fdiv 16) - 1) ∧
    (∀ (data : List Nat) (fn : String) (skelLen : Nat) (aset : Animset) (pre : SafPre),
      saf_prelude data = .ok pre →
      saf_nbones pre.offsets ≠ (skelLen : Int) →
      saf_decode data fn skelLen aset = .skipped (saf_nbones pre.offsets) skelLen) ∧
    (∀ (data : List Nat) (ds : List (List Nat)) (fn : String) (skelLen : Nat)
      (aset : Animset) (pre : SafPre),
      saf_prelude data = .ok pre →
      saf_nbones pre.offsets ≠ (skelLen : Int) →
      saf_process (data :: ds) fn skelLen aset = saf_process ds fn skelLen aset) := by
  refine ⟨saf_nbones_div16, saf_decode_skip, ?_⟩
  intro data ds fn skelLen aset pre hpre hne
  show saf_process ds fn skelLen _ = _
  rw [show (match saf_run data fn skelLen aset with
      | .ok (a2, _) => a2
      | .error _ => aset) = aset by
    unfold saf_run
    rw [saf_decode_skip data fn skelLen aset pre hpre hne]]

/-- Closed witness for `c7_bone_mismatch_skips`: the 56-byte animation with
offsets `[0, 48]` implies 2 bones; a 1-bone skeleton skips it. -/
theorem c7_bone_mismatch_skips_witness :
    (saf_prelude safBadAnim = .ok ⟨0, 2, [0, 48], []⟩ ∧
     saf_nbones [0, 48] ≠ ((1 : Nat) : Int)) ∧
    saf_decode safBadAnim "anim" 1 emptyAnimset = .skipped (saf_nbones [0, 48]) 1 :=
  ⟨⟨rfl, by decide⟩,
   c7_bone_mismatch_skips.2.1 safBadAnim "anim" 1 emptyAnimset ⟨0, 2, [0, 48], []⟩
     rfl (by decide)⟩

/-- C9: on a bone-count mismatch `saf_decode` returns before touching the
document or the output directory: the caller sees the original `animset`
arrays (nothing appended to `buffers`, `bufferViews`, `accessors` or
`animations`) and no companion `.bin` is written. -/
theorem c9_skip_leaves_state (data : List Nat) (fn : String) (skelLen : Nat)
    (aset : Animset) (pre : SafPre) (hpre : saf_prelude data = .ok pre)
    (hne : saf_nbones pre.offsets ≠ (skelLen : Int)) :
    saf_run data fn skelLen aset = .ok (aset, none) := by
  unfold saf_run
  rw [saf_decode_skip data fn skelLen aset pre hpre hne]

/-- Closed witness for `c9_skip_leaves_state` on the same 56-byte animation. -/
theorem c9_skip_leaves_state_witness :
    (saf_prelude safBadAnim = .ok ⟨0, 2, [0, 48], []⟩ ∧
     saf_nbones [0, 48] ≠ ((1 : Nat) : Int)) ∧
    saf_run safBadAnim "anim" 1 emptyAnimset = .ok (emptyAnimset, none) :=
  ⟨⟨rfl, by decide⟩,
   c9_skip_leaves_state safBadAnim "anim" 1 emptyAnimset ⟨0, 2, [0, 48], []⟩
     rfl (by decide)⟩

/-! ### C8: the malformed-material placeholder -/

/-- C8: for material data shorter than 120 bytes `smt_load` reports the
malformed-material error and the mesh transcoder emits a single placeholder
material and continues; but the placeholder is named `"E"`, not `"ERROR"`:
the source rebinds `tags = 'ERROR'` (a string, not a list), so `tags[i]`
picks out the first character. -/
theorem c8_malformed_material (data : List Nat) (h : data.length < 120) :
    smt_load data = .err ∧
    smf_materials data = .ok [{ name := "E", uri := "../textures/E.png" }] := by
  have hload : smt_load data = .err := by
    unfold smt_load
    rw [if_pos h]
  refine ⟨hload, ?_⟩
  unfold smf_materials
  rw [hload]
  rfl

/-- Closed witness for `c8_malformed_material` on the empty material file. -/
theorem c8_malformed_material_witness :
    ([] : List Nat).length < 120 ∧
    (smt_load [] = .err ∧
     smf_materials [] = .ok [{ name := "E", uri := "../textures/E.png" }]) :=
  ⟨by decide, c8_malformed_material [] (by decide)⟩

/-- Sum of a constant over `List.range`. -/
theorem sum_const_range (w n : Nat) : ((List.range w).map fun _ => n).sum = w * n := by
  induction w with
  | zero => simp
  | succ k ih =>
    rw [List.range_succ, List.map_append, List.sum_append, ih]
    simp [Nat.succ_mul]

/-- Shape of a successful `morton_decode`: `height` rows, each of
`width * n` values when the pixel decoder always emits `n` values. -/
theorem morton_decode_shape {w h n : Nat} {raw : List Nat} {dec : Nat → List Nat}
    {pix : List (List Nat)} (hd : ∀ c, (dec c).length = n)
    (hok : morton_decode w h raw dec = .ok pix) :
    pix.length = h ∧ ∀ r ∈ pix, r.length = w * n := by
  simp only [morton_decode] at hok
  split at hok
  case isFalse => cases hok
  case isTrue =>
    cases hok
    refine ⟨by simp, ?_⟩
    intro r hr
    simp only [List.mem_map, List.mem_range] at hr
    obtain ⟨i, hi, rfl⟩ := hr
    rw [List.length_flatten, List.map_map]
    have he : (List.length ∘ fun j => dec ((u16list (raw.drop (raw.length - w * h * 2))).getD (morton i j) 0))
        = fun _ => n := by
      funext j
      exact hd _
    rw [he, sum_const_range]

/-- Shape of a successful `vq_decode`: `2*(height/2)` rows, each of
`(width/2) * (2*n)` values. -/
theorem vq_decode_shape {w h n : Nat} {raw : List Nat} {dec : Nat → List Nat}
    {pix : List (List Nat)} (hd : ∀ c, (dec c).length = n)
    (hok : vq_decode w h raw dec = .ok pix) :
    pix.length = 2 * (h / 2) ∧ ∀ r ∈ pix, r.length = (w / 2) * (2 * n) := by
  simp only [vq_decode] at hok
  split at hok
  case isFalse => cases hok
  case isTrue =>
    cases hok
    constructor
    · rw [List.length_flatten, List.map_map]
      have he : ∀ f : Nat → List (List Nat), (∀ i, (f i).length = 2) →
          ((List.range (h / 2)).map fun i => (f i).length).sum = (h / 2) * 2 := by
        intro f hf
        have : ((List.range (h / 2)).map fun i => (f i).length)
            = (List.range (h / 2)).map fun _ => 2 := by
          simp [hf]
        rw [this, sum_const_range]
      rw [show (2 * (h / 2)) = (h / 2) * 2 from Nat.mul_comm _ _]
      exact he _ fun i => rfl
    · intro r hr
      simp only [List.mem_flatten, List.mem_map, List.mem_range] at hr
      obtain ⟨l, ⟨i, hi, rfl⟩, hr⟩ := hr
      simp only [List.mem_cons, List.not_mem_nil, or_false] at hr
      have hrow : ∀ g : Nat → List Nat × List Nat,
          (∀ j, (g j).1.length = 2 * n ∧ (g j).2.length = 2 * n) →
          ∀ pick : List Nat × List Nat → List Nat, (∀ p, pick p = p.1 ∨ pick p = p.2) →
          ((((List.range (w / 2)).map g).map pick).flatten).length = w / 2 * (2 * n) := by
        intro g hg pick hpick
        rw [List.length_flatten, List.map_map, List.map_map]
        have hcomp : ((List.length ∘ pick) ∘ g) = fun _ => 2 * n := by
          funext j
          rcases hpick (g j) with hp | hp <;>
            simp only [Function.comp, hp, (hg j).1, (hg j).2]
        rw [hcomp, sum_const_range]
      rcases hr with rfl | rfl
      · exact hrow _ (fun j => ⟨by simp [hd, Nat.two_mul], by simp [hd, Nat.two_mul]⟩)
          Prod.fst (fun p => Or.inl rfl)
      · exact hrow _ (fun j => ⟨by simp [hd, Nat.two_mul], by simp [hd, Nat.two_mul]⟩)
          Prod.snd (fun p => Or.inr rfl)

/-- Unwrap a successful `pvrWrap`. -/
theorem pvrWrap_ok {r : Except String (List (List Nat))} {m mode : String}
    {pix : List (List Nat)} (h : pvrWrap r m = .ok pix mode) :
    r = .ok pix ∧ mode = m := by
  unfold pvrWrap at h
  split at h
  · cases h; exact ⟨rfl, rfl⟩
  · cases h

/-- A twiddled arm of `pvr_decode` yields `h` rows of `w * channels`. -/
theorem mortonArmShape {w h n : Nat} {raw : List Nat} {dec : Nat → List Nat}
    {pix : List (List Nat)} {mode m : String}
    (hd : ∀ c, (dec c).length = n) (hc : channels m = n)
    (hok : pvrWrap (morton_decode w h raw dec) m = .ok pix mode) :
    pix.length = h ∧ ∀ r ∈ pix, r.length = w * channels mode := by
  obtain ⟨hr, rfl⟩ := pvrWrap_ok hok
  obtain ⟨h1, h2⟩ := morton_decode_shape hd hr
  refine ⟨h1, fun r hrm => ?_⟩
  rw [hc]
  exact h2 r hrm

/-- A VQ arm of `pvr_decode` with even dimensions yields `h` rows of
`w * channels`. -/
theorem vqArmShape {w h n : Nat} {raw : List Nat} {dec : Nat → List Nat}
    {pix : List (List Nat)} {mode m : String}
    (hd : ∀ c, (dec c).length = n) (hc : channels m = n)
    (hw : 2 ∣ w) (hh : 2 ∣ h)
    (hok : pvrWrap (vq_decode w h raw dec) m = .ok pix mode) :
    pix.length = h ∧ ∀ r ∈ pix, r.length = w * channels mode := by
  obtain ⟨hr, rfl⟩ := pvrWrap_ok hok
  obtain ⟨h1, h2⟩ := vq_decode_shape hd hr
  obtain ⟨wh, rfl⟩ := hw
  refine ⟨by rw [h1, Nat.mul_div_cancel' hh], fun r hrm => ?_⟩
  rw [hc, h2 r hrm, Nat.mul_div_cancel_left wh (by omega)]
  ring

set_option maxHeartbeats 1000000 in
/-- C5 (amended): every texture `pvr_decode` accepts decodes to a matrix
of `height` rows of `width * channels` byte values, provided `width` and
`height` are even when the VQ arm is taken (the source's VQ loops emit
`2*(height/2)` rows of `2*(width/2)` pixels, which equals the header
dimensions only for even sizes; the counterexample shows an accepted odd
size violating the claim). -/
theorem c5_decoded_shape (data : List Nat) (pix : List (List Nat)) (mode : String)
    (hok : pvr_decode data = .ok pix mode)
    (hw : 2 ∣ pvrWidth data) (hh : 2 ∣ pvrHeight data) :
    pix.length = pvrHeight data ∧ ∀ r ∈ pix, r.length = pvrWidth data * channels mode := by
  simp only [pvr_decode] at hok
  split at hok
  · cases hok
  split at hok
  · cases hok
  split at hok
  · cases hok
  split at hok
  · cases hok
  split at hok
  case isTrue =>
    split at hok
    · exact mortonArmShape (fun c => (rfl : (unpack1555 c).length = 4))
        (show channels "RGBA" = 4 from rfl) hok
    split at hok
    · exact vqArmShape (fun c => (rfl : (unpack1555 c).length = 4))
        (show channels "RGBA" = 4 from rfl) hw hh hok
    · cases hok
  case isFalse =>
    split at hok
    case isTrue =>
      split at hok
      · exact mortonArmShape (fun c => (rfl : (unpack4444 c).length = 4))
          (show channels "RGBA" = 4 from rfl) hok
      split at hok
      · exact vqArmShape (fun c => (rfl : (unpack4444 c).length = 4))
          (show channels "RGBA" = 4 from rfl) hw hh hok
      · cases hok
    case isFalse =>
      split at hok
      case isTrue =>
        split at hok
        · exact mortonArmShape (fun c => (rfl : (unpack565 c).length = 3))
            (show channels "RGB" = 3 from rfl) hok
        split at hok
        · exact vqArmShape (fun c => (rfl : (unpack565 c).length = 3))
            (show channels "RGB" = 3 from rfl) hw hh hok
        · cases hok
      case isFalse => cases hok

set_option maxHeartbeats 2000000 in
/-- Closed witness for `c5_decoded_shape` on the concrete 2x2 RGB565
twiddled texture. -/
theorem c5_decoded_shape_witness :
    (pvr_decode c2blob = .ok [[0, 0, 0, 0, 0, 16], [0, 0, 8, 0, 0, 24]] "RGB" ∧
     2 ∣ pvrWidth c2blob ∧ 2 ∣ pvrHeight c2blob) ∧
    (([[0, 0, 0, 0, 0, 16], [0, 0, 8, 0, 0, 24]] : List (List Nat)).length = pvrHeight c2blob ∧
     ∀ r ∈ ([[0, 0, 0, 0, 0, 16], [0, 0, 8, 0, 0, 24]] : List (List Nat)),
       r.length = pvrWidth c2blob * channels "RGB") :=
  ⟨⟨by decide, by decide, by decide⟩,
   c5_decoded_shape c2blob [[0, 0, 0, 0, 0, 16], [0, 0, 8, 0, 0, 24]] "RGB"
     (by decide) (by decide) (by decide)⟩

/-! ### C1: the morton interleave

The proof plan: `mortonSpread` (the mask-shift pipeline the source applies
to each coordinate) equals the reference bit-spreader `part1by1`; the
spread values of the two coordinates occupy disjoint (even/odd) bit
positions, so the final `x ||| (y << 1)` is `part1by1 x + 2 * part1by1 y`,
which `evenBits` inverts. -/

theorem part1by1_zero : part1by1 0 = 0 := by
  rw [part1by1]
  simp

theorem part1by1_eq (n : Nat) : part1by1 n = n % 2 + 4 * part1by1 (n / 2) := by
  by_cases h : n = 0
  · subst h
    rw [part1by1_zero]
  · rw [part1by1]
    simp [h]

theorem evenBits_zero : evenBits 0 = 0 := by
  rw [evenBits]
  simp

theorem evenBits_eq (n : Nat) : evenBits n = n % 2 + 2 * evenBits (n / 4) := by
  by_cases h : n = 0
  · subst h
    rw [evenBits_zero]
  · rw [evenBits]
    simp [h]

/-- The fuel-bounded spreader agrees with `part1by1` below `2^fuel`. -/
theorem part1by1F_eq (f : Nat) : ∀ n, n < 2 ^ f → part1by1F f n = part1by1 n := by
  induction f with
  | zero =>
    intro n h
    have hn : n = 0 := by simpa using h
    subst hn
    rw [part1by1_zero]
    rfl
  | succ k ih =>
    intro n h
    show n % 2 + 4 * part1by1F k (n / 2) = part1by1 n
    rw [ih (n / 2) (by rw [pow_succ] at h; omega), ← part1by1_eq]

set_option maxHeartbeats 1000000 in
set_option maxRecDepth 4000 in
/-- The three 16-bit mask-shift steps agree with the reference spreader on
bytes (checked exhaustively). -/
theorem spreadLow_eq_pF8 : ∀ a, a < 256 → spreadLow a = part1by1F 8 a := by decide

/-- Spreading a shifted sum: `part1by1` maps bit-blocks independently. -/
theorem part1by1_add_shift (k : Nat) : ∀ a b, a < 2 ^ k →
    part1by1 (a + 2 ^ k * b) = part1by1 a + 4 ^ k * part1by1 b := by
  induction k with
  | zero =>
    intro a b ha
    have ha0 : a = 0 := by simpa using ha
    subst ha0
    simp [part1by1_zero]
  | succ k ih =>
    intro a b ha
    have hsplit : 2 ^ (k+1) * b = 2 * (2 ^ k * b) := by ring
    have h1 : (a + 2 ^ (k+1) * b) % 2 = a % 2 := by
      rw [hsplit]
      omega
    have h2 : (a + 2 ^ (k+1) * b) / 2 = a / 2 + 2 ^ k * b := by
      rw [hsplit]
      omega
    have ha2 : a / 2 < 2 ^ k := by
      rw [pow_succ] at ha
      omega
    rw [part1by1_eq (a + 2 ^ (k+1) * b), h1, h2, ih (a / 2) b ha2, part1by1_eq a]
    ring

/-! Bit-splitting lemmas: `|||` and `&&&` act independently on the blocks
of `2^i * high + low` decompositions. -/

theorem splitLorPow (i a b c d : Nat) (hb : b < 2 ^ i) (hd : d < 2 ^ i) :
    (2 ^ i * a + b) ||| (2 ^ i * c + d) = 2 ^ i * (a ||| c) + (b ||| d) := by
  apply Nat.eq_of_testBit_eq
  intro j
  have hbd : b ||| d < 2 ^ i := Nat.or_lt_two_pow hb hd
  rw [Nat.testBit_or, Nat.testBit_mul_pow_two_add _ hb, Nat.testBit_mul_pow_two_add _ hd,
    Nat.testBit_mul_pow_two_add _ hbd]
  by_cases hj : j < i
  · simp [hj, Nat.testBit_or]
  · simp [hj, Nat.testBit_or]

theorem splitLandPow (i a b c d : Nat) (hb : b < 2 ^ i) (hd : d < 2 ^ i) :
    (2 ^ i * a + b) &&& (2 ^ i * c + d) = 2 ^ i * (a &&& c) + (b &&& d) := by
  apply Nat.eq_of_testBit_eq
  intro j
  have hbd : b &&& d < 2 ^ i := Nat.and_lt_two_pow b hd
  rw [Nat.testBit_and, Nat.testBit_mul_pow_two_add _ hb, Nat.testBit_mul_pow_two_add _ hd,
    Nat.testBit_mul_pow_two_add _ hbd]
  by_cases hj : j < i
  · simp [hj, Nat.testBit_and]
  · simp [hj, Nat.testBit_and]

theorem orLt16 (x y : Nat) (hx : x < 65536) (hy : y < 65536) : x ||| y < 65536 := by
  have h16 : (2:Nat) ^ 16 = 65536 := by norm_num
  have := Nat.or_lt_two_pow (by rw [h16]; exact hx : x < 2 ^ 16) (by rw [h16]; exact hy)
  rwa [h16] at this

theorem orLt8 (x y : Nat) (hx : x < 256) (hy : y < 256) : x ||| y < 256 := by
  have h8 : (2:Nat) ^ 8 = 256 := by norm_num
  have := Nat.or_lt_two_pow (by rw [h8]; exact hx : x < 2 ^ 8) (by rw [h8]; exact hy)
  rwa [h8] at this

theorem lorSplit16 (a b c d : Nat) (hb : b < 65536) (hd : d < 65536) :
    (65536 * a + b) ||| (65536 * c + d) = 65536 * (a ||| c) + (b ||| d) := by
  have h16 : (2:Nat) ^ 16 = 65536 := by norm_num
  have := splitLorPow 16 a b c d (by rw [h16]; exact hb) (by rw [h16]; exact hd)
  rwa [h16] at this

theorem landSplit16 (a b c d : Nat) (hb : b < 65536) (hd : d < 65536) :
    (65536 * a + b) &&& (65536 * c + d) = 65536 * (a &&& c) + (b &&& d) := by
  have h16 : (2:Nat) ^ 16 = 65536 := by norm_num
  have := splitLandPow 16 a b c d (by rw [h16]; exact hb) (by rw [h16]; exact hd)
  rwa [h16] at this

theorem lorSplit8 (a b c d : Nat) (hb : b < 256) (hd : d < 256) :
    (256 * a + b) ||| (256 * c + d) = 256 * (a ||| c) + (b ||| d) := by
  have h8 : (2:Nat) ^ 8 = 256 := by norm_num
  have := splitLorPow 8 a b c d (by rw [h8]; exact hb) (by rw [h8]; exact hd)
  rwa [h8] at this

theorem landSplit8 (a b c d : Nat) (hb : b < 256) (hd : d < 256) :
    (256 * a + b) &&& (256 * c + d) = 256 * (a &&& c) + (b &&& d) := by
  have h8 : (2:Nat) ^ 8 = 256 := by norm_num
  have := splitLandPow 8 a b c d (by rw [h8]; exact hb) (by rw [h8]; exact hd)
  rwa [h8] at this

theorem and255 (x : Nat) (hx : x < 256) : x &&& 255 = x := by
  have h8 : (2:Nat) ^ 8 = 256 := by norm_num
  have := Nat.and_pow_two_sub_one_of_lt_two_pow (by rw [h8]; exact hx : x < 2 ^ 8)
  rw [h8] at this
  norm_num at this
  exact this

theorem low_byte_and (u v : Nat) (hv : v < 256) : (256 * u + v) &&& 255 = v := by
  rw [show (255:Nat) = 256 * 0 + 255 from by norm_num,
    landSplit8 u v 0 255 hv (by omega), Nat.and_zero, and255 v hv]
  ring

/-- The first mask-shift step separates the two bytes of a 16-bit value
into bits 0-7 and 16-23. -/
theorem step1_byte (lo hi : Nat) (hlo : lo < 256) (hhi : hi < 256) :
    ((256 * hi + lo) ||| ((256 * hi + lo) <<< 8)) &&& 0x00ff00ff = 65536 * hi + lo := by
  have hx8 : (256 * hi + lo) <<< 8 = 65536 * hi + 256 * lo := by
    rw [Nat.shiftLeft_eq]
    norm_num
    ring
  rw [hx8, show (256 * hi + lo : Nat) = 65536 * 0 + (256 * hi + lo) from by ring,
    lorSplit16 0 (256 * hi + lo) hi (256 * lo) (by omega) (by omega), Nat.zero_or]
  have inner : (256 * hi + lo) ||| 256 * lo = 256 * (hi ||| lo) + lo := by
    rw [show (256 * lo : Nat) = 256 * lo + 0 from by ring,
      lorSplit8 hi lo lo 0 hlo (by omega), Nat.or_zero]
  rw [inner, show (0x00ff00ff : Nat) = 65536 * 255 + 255 from by norm_num,
    landSplit16 hi (256 * (hi ||| lo) + lo) 255 255
      (by have := orLt8 hi lo hhi hlo; omega) (by omega),
    and255 hi hhi, low_byte_and (hi ||| lo) lo hlo]

/-- A mask-shift step with a 16-bit-periodic mask acts independently on the
two 16-bit halves. -/
theorem maskstep_split (t m u v : Nat) (hu : u < 65536) (hut : u <<< t < 65536)
    (hm : m < 65536) :
    ((65536 * v + u) ||| ((65536 * v + u) <<< t)) &&& (65536 * m + m)
      = 65536 * ((v ||| (v <<< t)) &&& m) + ((u ||| (u <<< t)) &&& m) := by
  have hsh : (65536 * v + u) <<< t = 65536 * (v <<< t) + u <<< t := by
    rw [Nat.shiftLeft_eq, Nat.shiftLeft_eq, Nat.shiftLeft_eq]
    ring
  rw [hsh, lorSplit16 v u (v <<< t) (u <<< t) hu hut,
    landSplit16 (v ||| v <<< t) (u ||| u <<< t) m m (orLt16 _ _ hu hut) hm]

/-- `mortonSpread` splits into independent byte pipelines. -/
theorem mortonSpread_split (lo hi : Nat) (hlo : lo < 256) (hhi : hi < 256) :
    mortonSpread (256 * hi + lo) = 65536 * spreadLow hi + spreadLow lo := by
  have hb4 : ∀ z, z < 256 → z <<< 4 < 65536 := by
    intro z hz
    rw [Nat.shiftLeft_eq]
    norm_num
    omega
  have hb2 : ∀ z, ((z ||| z <<< 4) &&& 0x0f0f) <<< 2 < 65536 := by
    intro z
    have h1 : (z ||| z <<< 4) &&& 0x0f0f ≤ 0x0f0f := Nat.and_le_right
    rw [Nat.shiftLeft_eq]
    norm_num
    omega
  have hb1 : ∀ z, (((z ||| z <<< 4) &&& 0x0f0f ||| ((z ||| z <<< 4) &&& 0x0f0f) <<< 2) &&& 0x3333) <<< 1 < 65536 := by
    intro z
    have h1 : ((z ||| z <<< 4) &&& 0x0f0f ||| ((z ||| z <<< 4) &&& 0x0f0f) <<< 2) &&& 0x3333 ≤ 0x3333 :=
      Nat.and_le_right
    rw [Nat.shiftLeft_eq]
    norm_num
    omega
  simp only [mortonSpread, spreadLow]
  rw [step1_byte lo hi hlo hhi,
    show (0x0f0f0f0f : Nat) = 65536 * 0x0f0f + 0x0f0f from by norm_num,
    maskstep_split 4 0x0f0f lo hi (by omega) (hb4 lo hlo) (by norm_num),
    show (0x33333333 : Nat) = 65536 * 0x3333 + 0x3333 from by norm_num,
    maskstep_split 2 0x3333 ((lo ||| lo <<< 4) &&& 0x0f0f) ((hi ||| hi <<< 4) &&& 0x0f0f)
      (by have := @Nat.and_le_right (lo ||| lo <<< 4) 0x0f0f; omega)
      (hb2 lo) (by norm_num),
    show (0x55555555 : Nat) = 65536 * 0x5555 + 0x5555 from by norm_num,
    maskstep_split 1 0x5555 _ _
      (by have := @Nat.and_le_right ((lo ||| lo <<< 4) &&& 0x0f0f ||| ((lo ||| lo <<< 4) &&& 0x0f0f) <<< 2) 0x3333; omega)
      (hb1 lo) (by norm_num)]

/-- The source's spread pipeline equals the reference bit-spreader on
16-bit inputs. -/
theorem mortonSpread_eq_part1by1 (x : Nat) (hx : x < 65536) :
    mortonSpread x = part1by1 x := by
  have h8 : (2:Nat) ^ 8 = 256 := by norm_num
  have hq : x / 256 < 256 := by omega
  have hr : x % 256 < 256 := by omega
  have h := mortonSpread_split (x % 256) (x / 256) hr hq
  rw [show 256 * (x / 256) + x % 256 = x from by omega] at h
  rw [h, spreadLow_eq_pF8 _ hq, spreadLow_eq_pF8 _ hr,
    part1by1F_eq 8 _ (by rw [h8]; exact hq), part1by1F_eq 8 _ (by rw [h8]; exact hr)]
  have h2 := part1by1_add_shift 8 (x % 256) (x / 256) (by rw [h8]; exact hr)
  rw [show x % 256 + 2 ^ 8 * (x / 256) = x from by rw [h8]; omega] at h2
  rw [h2, show (4:Nat) ^ 8 = 65536 from by norm_num]
  ring

/-- `%2` distributes over `|||`. -/
theorem or_mod_two (a b : Nat) : (a ||| b) % 2 = a % 2 ||| b % 2 := by
  have hiff := @Nat.or_mod_two_eq_one a b
  rcases Nat.mod_two_eq_zero_or_one a with h1 | h1 <;>
    rcases Nat.mod_two_eq_zero_or_one b with h2 | h2 <;> rw [h1, h2]
  · have hz : ¬ ((a ||| b) % 2 = 1) := by
      rw [hiff]
      omega
    have h00 : (0:Nat) ||| 0 = 0 := rfl
    omega
  · exact hiff.mpr (Or.inr h2)
  · exact hiff.mpr (Or.inl h1)
  · exact hiff.mpr (Or.inl h1)

/-- Even-bit and odd-bit spread values are bitwise disjoint, so their `|||`
is their sum. -/
theorem p_lor_disjoint : ∀ n x y, x + y ≤ n →
    part1by1 x ||| 2 * part1by1 y = part1by1 x + 2 * part1by1 y := by
  intro n
  induction n with
  | zero =>
    intro x y h
    have hx : x = 0 := by omega
    have hy : y = 0 := by omega
    subst hx
    subst hy
    rw [part1by1_zero]
    simp
  | succ k ih =>
    intro x y h
    by_cases hx0 : x = 0
    · subst hx0
      rw [part1by1_zero]
      simp
    · have hdecomp : (part1by1 x) ||| (2 * part1by1 y)
          = 2 * (part1by1 x / 2 ||| (2 * part1by1 y) / 2)
            + (part1by1 x % 2 ||| (2 * part1by1 y) % 2) := by
        rw [← Nat.or_div_two, ← or_mod_two]
        omega
      have hpx := part1by1_eq x
      have e1 : part1by1 x / 2 = 2 * part1by1 (x / 2) := by omega
      have e2 : part1by1 x % 2 = x % 2 := by omega
      have e3 : (2 * part1by1 y) / 2 = part1by1 y := by omega
      have e4 : (2 * part1by1 y) % 2 = 0 := by omega
      rw [hdecomp, e1, e2, e3, e4, Nat.or_zero, Nat.or_comm,
        ih y (x / 2) (by omega)]
      omega

/-- On 16-bit coordinates, `morton` computes the even/odd interleave
`part1by1 x + 2 * part1by1 y`. -/
theorem morton_interleave (x y : Nat) (hx : x < 65536) (hy : y < 65536) :
    morton x y = part1by1 x + 2 * part1by1 y := by
  have hm : morton x y = mortonSpread x ||| (mortonSpread y <<< 1) := rfl
  have hsh : part1by1 y <<< 1 = 2 * part1by1 y := by
    rw [Nat.shiftLeft_eq]
    omega
  rw [hm, mortonSpread_eq_part1by1 x hx, mortonSpread_eq_part1by1 y hy, hsh,
    p_lor_disjoint (x + y) x y (le_refl _)]

/-- `evenBits` recovers the first interleave coordinate. -/
theorem evenBits_interleave : ∀ n x y, x + y ≤ n →
    evenBits (part1by1 x + 2 * part1by1 y) = x := by
  intro n
  induction n with
  | zero =>
    intro x y h
    have hx : x = 0 := by omega
    have hy : y = 0 := by omega
    subst hx
    subst hy
    rw [part1by1_zero]
    simp [evenBits_zero]
  | succ k ih =>
    intro x y h
    by_cases h0 : x = 0 ∧ y = 0
    · obtain ⟨rfl, rfl⟩ := h0
      rw [part1by1_zero]
      simp [evenBits_zero]
    · have hpx := part1by1_eq x
      have hpy := part1by1_eq y
      rw [evenBits_eq]
      have e1 : (part1by1 x + 2 * part1by1 y) % 2 = x % 2 := by omega
      have e2 : (part1by1 x + 2 * part1by1 y) / 4
          = part1by1 (x / 2) + 2 * part1by1 (y / 2) := by omega
      rw [e1, e2, ih (x / 2) (y / 2) (by omega)]
      omega

/-- `evenBits` of the half recovers the second interleave coordinate. -/
theorem oddBits_interleave (x y : Nat) :
    evenBits ((part1by1 x + 2 * part1by1 y) / 2) = y := by
  have hpx := part1by1_eq x
  have e : (part1by1 x + 2 * part1by1 y) / 2 = part1by1 y + 2 * part1by1 (x / 2) := by
    omega
  rw [e, evenBits_interleave (y + x / 2) y (x / 2) (le_refl _)]

/-- Every code is the interleave of its even and odd bits. -/
theorem evenBits_recon : ∀ n z, z ≤ n →
    part1by1 (evenBits z) + 2 * part1by1 (evenBits (z / 2)) = z := by
  intro n
  induction n with
  | zero =>
    intro z h
    have hz : z = 0 := by omega
    subst hz
    simp [evenBits_zero, part1by1_zero]
  | succ k ih =>
    intro z h
    by_cases h0 : z = 0
    · subst h0
      simp [evenBits_zero, part1by1_zero]
    · have he1 := evenBits_eq z
      have he2 := evenBits_eq (z / 2)
      have hp1 := part1by1_eq (evenBits z)
      have hp2 := part1by1_eq (evenBits (z / 2))
      have e1 : part1by1 (evenBits z) = z % 2 + 4 * part1by1 (evenBits (z / 4)) := by
        rw [hp1, show evenBits z % 2 = z % 2 from by omega,
          show evenBits z / 2 = evenBits (z / 4) from by omega]
      have e2 : part1by1 (evenBits (z / 2))
          = (z / 2) % 2 + 4 * part1by1 (evenBits (z / 2 / 4)) := by
        rw [hp2, show evenBits (z / 2) % 2 = (z / 2) % 2 from by omega,
          show evenBits (z / 2) / 2 = evenBits (z / 2 / 4) from by omega]
      have hz24 : z / 2 / 4 = z / 4 / 2 := by omega
      have hIH := ih (z / 4) (by omega)
      rw [e1, e2, hz24]
      omega

/-- Bound on spread values: `3 * part1by1 x ≤ 4^k - 1` below `2^k`. -/
theorem part1by1_bound : ∀ k x, x < 2 ^ k → 3 * part1by1 x ≤ 4 ^ k - 1 := by
  intro k
  induction k with
  | zero =>
    intro x h
    have hx : x = 0 := by simpa using h
    subst hx
    simp [part1by1_zero]
  | succ j ih =>
    intro x h
    have hp := part1by1_eq x
    have h2 : x / 2 < 2 ^ j := by
      rw [pow_succ] at h
      omega
    have hA := ih (x / 2) h2
    have h4 : (4:Nat) ^ (j+1) = 4 * 4 ^ j := by
      rw [pow_succ]
      ring
    have h40 : 1 ≤ (4:Nat) ^ j := Nat.one_le_pow j 4 (by omega)
    omega

/-- Bound on extracted even bits: below `2^k` when the input is below `4^k`. -/
theorem evenBits_bound : ∀ k z, z < 4 ^ k → evenBits z < 2 ^ k := by
  intro k
  induction k with
  | zero =>
    intro z h
    have hz : z = 0 := by simpa using h
    subst hz
    simp [evenBits_zero]
  | succ j ih =>
    intro z h
    have he := evenBits_eq z
    have h2 : z / 4 < 4 ^ j := by
      rw [pow_succ] at h
      omega
    have hE := ih (z / 4) h2
    have hp : (2:Nat) ^ (j+1) = 2 * 2 ^ j := by
      rw [pow_succ]
      ring
    omega

/-- Bit `2k` of a spread value is bit `k` of the input. -/
theorem part1by1_testBit_even : ∀ k x, (part1by1 x).testBit (2 * k) = x.testBit k := by
  intro k
  induction k with
  | zero =>
    intro x
    have h : part1by1 x % 2 = x % 2 := by
      have := part1by1_eq x
      omega
    simp only [Nat.mul_zero, Nat.testBit_zero, h]
  | succ j ih =>
    intro x
    have h2 : part1by1 x / 2 / 2 = part1by1 (x / 2) := by
      have := part1by1_eq x
      omega
    rw [show 2 * (j + 1) = (2 * j + 1) + 1 from by ring, Nat.testBit_add_one,
      Nat.testBit_add_one, Nat.testBit_add_one, h2]
    exact ih (x / 2)

/-- Bit `2k+1` of a spread value is clear. -/
theorem part1by1_testBit_odd : ∀ k x, (part1by1 x).testBit (2 * k + 1) = false := by
  intro k
  induction k with
  | zero =>
    intro x
    have h : part1by1 x / 2 % 2 = 0 := by
      have := part1by1_eq x
      omega
    rw [show 2 * 0 + 1 = 0 + 1 from rfl, Nat.testBit_add_one, Nat.testBit_zero, h]
    simp
  | succ j ih =>
    intro x
    have h2 : part1by1 x / 2 / 2 = part1by1 (x / 2) := by
      have := part1by1_eq x
      omega
    rw [show 2 * (j + 1) + 1 = (2 * j + 1) + 1 + 1 from by ring, Nat.testBit_add_one,
      Nat.testBit_add_one, h2]
    exact ih (x / 2)

theorem morton_x0 (x : Nat) (hx : x < 65536) : morton x 0 = part1by1 x := by
  rw [morton_interleave x 0 hx (by omega), part1by1_zero]
  omega

theorem morton_0x (x : Nat) (hx : x < 65536) : morton 0 x = 2 * part1by1 x := by
  rw [morton_interleave 0 x (by omega) hx, part1by1_zero]
  omega

theorem testBit_double_zero (m : Nat) : (2 * m).testBit 0 = false := by
  rw [Nat.testBit_zero]
  simp [Nat.mul_mod_right]

theorem testBit_double_succ (m k : Nat) : (2 * m).testBit (k + 1) = m.testBit k := by
  rw [Nat.testBit_add_one]
  congr 1
  omega

/-- C1: `morton` restricted to `[0, 65536) x [0, 65536)` is a bijection
onto `[0, 2^32)`; `morton (x, 0)` has set bits only at even positions (bit
`2k` is bit `k` of `x`) and `morton (0, y)` only at odd positions (bit
`2k+1` is bit `k` of `y`). -/
theorem c1_morton_bijection_and_bits :
    Set.BijOn (fun q : Nat × Nat => morton q.1 q.2)
      (Set.Iio 65536 ×ˢ Set.Iio 65536) (Set.Iio 4294967296) ∧
    ∀ x k, x < 65536 →
      ((morton x 0).testBit (2 * k) = x.testBit k ∧
       (morton x 0).testBit (2 * k + 1) = false) ∧
      ((morton 0 x).testBit (2 * k + 1) = x.testBit k ∧
       (morton 0 x).testBit (2 * k) = false) := by
  have h16 : (2:Nat) ^ 16 = 65536 := by norm_num
  have h416 : (4:Nat) ^ 16 = 4294967296 := by norm_num
  constructor
  · refine ⟨?_, ?_, ?_⟩
    · rintro ⟨x, y⟩ hq
      simp only [Set.mem_prod, Set.mem_Iio] at hq
      obtain ⟨hx, hy⟩ := hq
      simp only [Set.mem_Iio]
      rw [morton_interleave x y hx hy]
      have hbx := part1by1_bound 16 x (by rw [h16]; exact hx)
      have hby := part1by1_bound 16 y (by rw [h16]; exact hy)
      omega
    · rintro ⟨x, y⟩ hq1 ⟨x2, y2⟩ hq2 heq
      simp only [Set.mem_prod, Set.mem_Iio] at hq1 hq2
      obtain ⟨hx, hy⟩ := hq1
      obtain ⟨hx2, hy2⟩ := hq2
      simp only at heq
      rw [morton_interleave x y hx hy, morton_interleave x2 y2 hx2 hy2] at heq
      have e1 : x = x2 := by
        have hcongr := congrArg evenBits heq
        rwa [evenBits_interleave (x + y) x y (le_refl _),
          evenBits_interleave (x2 + y2) x2 y2 (le_refl _)] at hcongr
      have e2 : y = y2 := by
        have hcongr := congrArg (fun t => evenBits (t / 2)) heq
        simp only at hcongr
        rwa [oddBits_interleave x y, oddBits_interleave x2 y2] at hcongr
      subst e1
      subst e2
      rfl
    · rintro z hz
      simp only [Set.mem_Iio] at hz
      have hx : evenBits z < 65536 := by
        have := evenBits_bound 16 z (by rw [h416]; exact hz)
        rwa [h16] at this
      have hy : evenBits (z / 2) < 65536 := by
        have := evenBits_bound 16 (z / 2) (by rw [h416]; omega)
        rwa [h16] at this
      refine ⟨(evenBits z, evenBits (z / 2)), ?_, ?_⟩
      · simp only [Set.mem_prod, Set.mem_Iio]
        exact ⟨hx, hy⟩
      · simp only
        rw [morton_interleave _ _ hx hy]
        exact evenBits_recon z z (le_refl _)
  · intro x k hx
    refine ⟨⟨?_, ?_⟩, ⟨?_, ?_⟩⟩
    · rw [morton_x0 x hx]
      exact part1by1_testBit_even k x
    · rw [morton_x0 x hx]
      exact part1by1_testBit_odd k x
    · rw [morton_0x x hx, testBit_double_succ]
      exact part1by1_testBit_even k x
    · rw [morton_0x x hx]
      rcases k with _ | j
      · rw [Nat.mul_zero]
        exact testBit_double_zero _
      · rw [show 2 * (j + 1) = 2 * j + 1 + 1 from by ring, testBit_double_succ]
        exact part1by1_testBit_odd j x

/-- Closed witness for the bit-position half of
`c1_morton_bijection_and_bits`, at `x = 5`, `k = 1`. -/
theorem c1_morton_bijection_and_bits_witness :
    (5:Nat) < 65536 ∧
    (((morton 5 0).testBit (2 * 1) = Nat.testBit 5 1 ∧
      (morton 5 0).testBit (2 * 1 + 1) = false) ∧
     ((morton 0 5).testBit (2 * 1 + 1) = Nat.testBit 5 1 ∧
      (morton 0 5).testBit (2 * 1) = false)) :=
  ⟨by decide, c1_morton_bijection_and_bits.2 5 1 (by decide)⟩
